import Mathlib

/-!
Verification of the GraphFilters plugin (`src/main.ts`).

The plugin keeps an ordered list of filter strings (`settings.filters`),
mirrors it into the host's native search input as the terms joined by the
literal delimiter `"   AND   "`, renders one editable pill per entry, and
persists the list after every mutation.

JavaScript strings are modelled as `List Char` (`Str`).  `String.prototype.trim`,
`String.prototype.split` with the fixed non-empty separator, and `Array.prototype.join`
are translated below; the split is the usual leftmost, non-overlapping scan.
-/

abbrev Str := List Char

/-- `c` counts as whitespace for `trim` (ASCII agrees with the JS semantics on
every character the plugin manipulates). -/
def isWS (c : Char) : Bool := c.isWhitespace

/-- Left half of `String.prototype.trim`. -/
def trimLeft (s : Str) : Str := s.dropWhile isWS

/-- Right half of `String.prototype.trim`. -/
def trimRight (s : Str) : Str := (s.reverse.dropWhile isWS).reverse

/-- `String.prototype.trim`: drop whitespace from both ends. -/
def trim (s : Str) : Str := trimLeft (trimRight s)

/-- The delimiter `"   AND   "` (three spaces, `AND`, three spaces) used by
`updateSearchQuery` (join) and `handleSearchInputChange` (split). -/
def DELIM : Str := [' ', ' ', ' ', 'A', 'N', 'D', ' ', ' ', ' ']

/-- Three consecutive spaces: the head of `DELIM`. -/
def threeSp : Str := [' ', ' ', ' ']

/-- `startsWith pat s` holds when `pat` is an initial segment of `s`. -/
def startsWith : Str → Str → Bool
  | [], _ => true
  | _ :: _, [] => false
  | c :: p, d :: s => c == d && startsWith p s

/-- Index of the leftmost occurrence of `DELIM` in `s`, if any: the scan
`String.prototype.split` performs. -/
def firstOcc : Str → Option Nat
  | [] => none
  | c :: t =>
    if startsWith DELIM (c :: t) then some 0
    else (firstOcc t).map (· + 1)

/-- Fuelled splitter: cut at the leftmost `DELIM`, continue after it.  The fuel
only serves to make the recursion structural; `s.length + 1` always suffices
because every cut removes at least the nine delimiter characters. -/
def splitGo : Nat → Str → List Str
  | 0, s => [s]
  | fuel + 1, s =>
    match firstOcc s with
    | none => [s]
    | some i => s.take i :: splitGo fuel (s.drop (i + 9))

/-- `String.prototype.split("   AND   ")`. -/
def splitDelim (s : Str) : List Str := splitGo (s.length + 1) s

/-- `Array.prototype.join("   AND   ")`. -/
def joinDelim : List Str → Str
  | [] => []
  | [x] => x
  | x :: y :: rest => x ++ (DELIM ++ joinDelim (y :: rest))

/-- The reconciliation pipeline of `handleSearchInputChange` (and of the parse
block in `initializeComponents`): split on the delimiter, trim each piece,
drop the empty pieces. -/
def reconcile (v : Str) : List Str :=
  ((splitDelim v).map trim).filter (fun f => decide (0 < f.length))

/-- A well-formed filter entry: non-empty, whitespace-trimmed, and containing
no run of three consecutive spaces (so joining cannot manufacture a delimiter
occurrence anywhere except at the join points). -/
def goodStr (x : Str) : Prop :=
  x ≠ [] ∧ trim x = x ∧ ∀ j < x.length, startsWith threeSp (x.drop j) = false

instance goodStrDec (x : Str) : Decidable (goodStr x) := by
  unfold goodStr; infer_instance

/-! ### The plugin state and its operations (`src/main.ts`)

`PState` captures the observable state the claims are about:

* `filters`       — `this.settings.filters`;
* `saved`         — the last copy written by `saveSettings` (`saveData`);
* `saves`         — how many persisted writes `saveSettings` has performed;
* `searchInput`   — the native search box's value, `none` when
  `document.querySelector` did not find it (`this.searchInput = null`);
* `pillsContainer`— whether `this.filtersContainer` is set (and attached);
* `pills`         — the entries currently rendered as pills.

Operations that can throw a runtime `TypeError` return `Except Unit PState`
(`.error ()` standing for the thrown exception). -/

structure PState where
  filters : List Str
  saved : List Str
  saves : Nat
  searchInput : Option Str
  pillsContainer : Bool
  pills : List Str
deriving DecidableEq

deriving instance DecidableEq for Except

/-- `saveSettings`: `this.saveData(this.settings)` — persist the current list. -/
def saveSettings (st : PState) : PState :=
  { st with saved := st.filters, saves := st.saves + 1 }

/-- `renderPills`: empties the container (`this.filtersContainer?.empty()`)
and recreates one pill per entry.  The `forEach` body dereferences
`this.filtersContainer` without the optional-chaining guard, so when the
container was never created and the list is non-empty it throws a
`TypeError`. -/
def renderPills (st : PState) : Except Unit PState :=
  if st.pillsContainer then .ok { st with pills := st.filters }
  else if st.filters = [] then .ok st
  else .error ()

/-- `handleSearchInputChange`: on every `input` event of the native box,
split its value on the delimiter, trim, drop empties, and adopt the result
exactly when it differs from the current list (the `JSON.stringify`
comparison is equality of string lists).  On adoption it saves and
re-renders the pills. -/
def handleSearchInputChange (st : PState) : Except Unit PState :=
  match st.searchInput with
  | none => .ok st
  | some v =>
    if reconcile v = st.filters then .ok st
    else renderPills (saveSettings { st with filters := reconcile v })

/-- `updateSearchQuery`: if the native input exists, write the joined query
into it and dispatch a synthetic `input` event.  `dispatchEvent` runs the
listeners synchronously, and `initializeMainInput` registered
`handleSearchInputChange` on exactly this element, so the write is
immediately followed by a reconciliation pass.  (The `change` event sent
after a 10 ms delay has no plugin-side listener.) -/
def updateSearchQuery (st : PState) : Except Unit PState :=
  match st.searchInput with
  | none => .ok st
  | some _ => handleSearchInputChange
      { st with searchInput := some (joinDelim st.filters) }

/-- `handleNewFilter` (append): trim the committing input's value; if
non-empty, push it, clear the secondary input (not tracked in `PState`),
save, push the derived query into the native input, and re-render pills. -/
def handleNewFilter (st : PState) (inputVal : Str) : Except Unit PState :=
  let value := trim inputVal
  if value = [] then .ok st
  else
    match updateSearchQuery
        (saveSettings { st with filters := st.filters ++ [value] }) with
    | .error e => .error e
    | .ok st3 => renderPills st3

/-- `removeFilter`: `splice(index, 1)` (for the `forEach`-produced natural
indices this is `List.eraseIdx`), save, recompute the derived query,
re-render pills. -/
def removeFilter (st : PState) (index : Nat) : Except Unit PState :=
  match updateSearchQuery
      (saveSettings { st with filters := st.filters.eraseIdx index }) with
  | .error e => .error e
  | .ok st3 => renderPills st3

/-- The body of the debounced edit callback built by `initializeDebouncer`:
when the index is still in bounds, store the trimmed value at it, save and
recompute the derived query — and do *not* re-render the pills.  The index
is an `Int` so that the guard's `index >= 0` test is meaningful. -/
def debouncedUpdateFire (st : PState) (index : Int) (value : Str) :
    Except Unit PState :=
  if 0 ≤ index ∧ index < (st.filters.length : Int) then
    updateSearchQuery
      (saveSettings { st with filters := st.filters.set index.toNat (trim value) })
  else .ok st

/-- The debouncer wrapper state: at most one pending `(index, value)` call.
Modelled from the spec: the `debounce` helper itself comes from the host
library and is not part of this repository; §9 of the spec models it as a
single re-armed timer whose fire applies the latest recorded call. -/
structure Debouncer where
  pending : Option (Int × Str)
deriving DecidableEq

/-- A call inside the debounce window replaces the pending call and re-arms
the timer (the `resetTimer = true` argument of `debounce`). -/
def debounceCall (_d : Debouncer) (index : Int) (value : Str) : Debouncer :=
  { pending := some (index, value) }

/-- When the window elapses the single pending call fires. -/
def debounceFlush (st : PState) (d : Debouncer) :
    Except Unit (PState × Debouncer) :=
  match d.pending with
  | none => .ok (st, d)
  | some (i, v) =>
    match debouncedUpdateFire st i v with
    | .error e => .error e
    | .ok st' => .ok (st', ⟨none⟩)

/-- Modelled from the spec: a *leading-edge* debouncer as the spec words it
("the first keystroke in a burst fires immediately and subsequent ones
within the window are coalesced") — the first call of a burst fires at
once, the later calls inside the window are absorbed. -/
def leadingBurst (st : PState) (calls : List (Int × Str)) :
    Except Unit PState :=
  match calls with
  | [] => .ok st
  | (i, v) :: _ => debouncedUpdateFire st i v

/-! ### Setup / DOM-creation model (`createPillsContainer`, `createSecondaryInput`)

`SetupState` captures what the two creation guards can observe:

* `controlsPresent`   — whether `document.querySelector('.graph-controls
  .setting-item.mod-search-setting')` finds the host controls row;
* `pillsConnected`    — `none` while `this.filtersContainer` is unassigned,
  `some c` once assigned, with `c` its `isConnected` value;
* `secondaryFlag`     — `this.existingSecondaryInput`;
* `secondaryAttached` — whether a previously created secondary input element
  is still attached to the document (what an `isConnected` check would see);
* `pillsCreated`, `secondaryCreated` — how many elements of each kind have
  been created and inserted. -/

structure SetupState where
  controlsPresent : Bool
  pillsConnected : Option Bool
  secondaryFlag : Bool
  secondaryAttached : Bool
  pillsCreated : Nat
  secondaryCreated : Nat
deriving DecidableEq

/-- `createPillsContainer`: guarded by
`if (!controls || this.filtersContainer?.isConnected) return` — an
attachment check.  A fresh container is inserted next to the controls row,
hence connected. -/
def createPillsContainer (s : SetupState) : SetupState :=
  if !s.controlsPresent || s.pillsConnected.getD false then s
  else { s with pillsConnected := some true,
                pillsCreated := s.pillsCreated + 1 }

/-- `createSecondaryInput`: guarded by
`if (!controls || this.existingSecondaryInput) return` — a created-once
boolean flag, *not* an attachment check. -/
def createSecondaryInput (s : SetupState) : SetupState :=
  if !s.controlsPresent || s.secondaryFlag then s
  else { s with secondaryFlag := true, secondaryAttached := true,
                secondaryCreated := s.secondaryCreated + 1 }

/-- The secondary-input creation as the spec words it: "check for an
existing, still-attached element before creating a new one". -/
def createSecondaryInputSpec (s : SetupState) : SetupState :=
  if !s.controlsPresent || s.secondaryAttached then s
  else { s with secondaryFlag := true, secondaryAttached := true,
                secondaryCreated := s.secondaryCreated + 1 }

/-- The creation part of `initializeComponents`: `createPillsContainer()`
followed by `createSecondaryInput()`. -/
def setupCreate (s : SetupState) : SetupState :=
  createSecondaryInput (createPillsContainer s)

/-! ### Settings loading (`loadSettings`) -/

/-- The record `loadData()` yields once parsed: the `filters` field may be
absent (`none`), as in a legacy or field-less record. -/
structure StoredData where
  filters : Option (List Str)
deriving DecidableEq

structure GraphFilterSettings where
  filters : List Str
deriving DecidableEq

def DEFAULT_SETTINGS : GraphFilterSettings := ⟨[]⟩

/-- `loadSettings`: `{ ...DEFAULT_SETTINGS, ...(await this.loadData()) }` — a
shallow merge of the persisted record over the default.  A missing record
(`loadData()` returns `null`, spreading nothing) or a record without the
`filters` field leaves the default field in place. -/
def loadSettings : Option StoredData → GraphFilterSettings
  | none => DEFAULT_SETTINGS
  | some d => ⟨d.filters.getD DEFAULT_SETTINGS.filters⟩

/-- `initializeComponents` on a page where the expected host search
container cannot be located: `createPillsContainer` and
`createSecondaryInput` return at their guards, `initializeMainInput` finds
no input (`searchInput = null`) so the parse block is skipped — and then
`renderPills()` still runs on the absent container. -/
def initializeComponentsNoHost (st : PState) : Except Unit PState :=
  renderPills { st with pillsContainer := false, searchInput := none }

/-! ### Basic facts about `startsWith`, `firstOcc` and `splitGo` -/

theorem startsWith_self_append (p t : Str) : startsWith p (p ++ t) = true := by
  induction p with
  | nil => rfl
  | cons c p ih => simp [startsWith, ih]

theorem length_le_of_startsWith (p s : Str) (h : startsWith p s = true) :
    p.length ≤ s.length := by
  induction p generalizing s with
  | nil => simp
  | cons c p ih =>
    cases s with
    | nil => simp [startsWith] at h
    | cons d s =>
      simp only [startsWith, Bool.and_eq_true] at h
      simpa [List.length_cons] using Nat.succ_le_succ (ih s h.2)

theorem startsWith_of_startsWith_append (a b s : Str)
    (h : startsWith (a ++ b) s = true) : startsWith a s = true := by
  induction a generalizing s with
  | nil => rfl
  | cons c a ih =>
    cases s with
    | nil => simp [startsWith] at h
    | cons d s =>
      simp only [List.cons_append, startsWith, Bool.and_eq_true] at h ⊢
      exact ⟨h.1, ih s h.2⟩

theorem startsWith_append_left (p u w : Str) (hlen : p.length ≤ u.length)
    (h : startsWith p (u ++ w) = true) : startsWith p u = true := by
  induction p generalizing u with
  | nil => rfl
  | cons c p ih =>
    cases u with
    | nil => simp at hlen
    | cons d u =>
      simp only [List.cons_append, startsWith, Bool.and_eq_true] at h ⊢
      exact ⟨h.1, ih u (Nat.le_of_succ_le_succ hlen) h.2⟩

theorem firstOcc_eq_none_of (s : Str)
    (h : ∀ j, startsWith DELIM (s.drop j) = false) : firstOcc s = none := by
  induction s with
  | nil => rfl
  | cons c t ih =>
    have h0 := h 0
    simp only [List.drop_zero] at h0
    have ht : firstOcc t = none := ih (fun j => h (j + 1))
    simp [firstOcc, h0, ht]

theorem firstOcc_eq_some_of (s : Str) (i : Nat)
    (hi : startsWith DELIM (s.drop i) = true)
    (hmin : ∀ j < i, startsWith DELIM (s.drop j) = false) :
    firstOcc s = some i := by
  induction s generalizing i with
  | nil =>
    rw [List.drop_nil] at hi
    simp [startsWith, DELIM] at hi
  | cons c t ih =>
    cases i with
    | zero =>
      rw [List.drop_zero] at hi
      simp [firstOcc, hi]
    | succ j =>
      have h0 := hmin 0 (Nat.succ_pos j)
      rw [List.drop_zero] at h0
      have ht : firstOcc t = some j := by
        refine ih j hi (fun k hk => ?_)
        exact hmin (k + 1) (Nat.succ_lt_succ hk)
      simp [firstOcc, h0, ht]

theorem firstOcc_some_imp (s : Str) (i : Nat) (h : firstOcc s = some i) :
    startsWith DELIM (s.drop i) = true := by
  induction s generalizing i with
  | nil => simp [firstOcc] at h
  | cons c t ih =>
    by_cases hc : startsWith DELIM (c :: t) = true
    · simp [firstOcc, hc] at h
      simpa [← h] using hc
    · simp only [firstOcc, hc, Bool.false_eq_true, if_false, Option.map_eq_some'] at h
      obtain ⟨j, hj, rfl⟩ := h
      simpa using ih j hj

theorem splitGo_fuel_irrel (f₁ : Nat) : ∀ (f₂ : Nat) (s : Str),
    s.length < f₁ → s.length < f₂ → splitGo f₁ s = splitGo f₂ s := by
  induction f₁ with
  | zero => intro f₂ s h₁ _; omega
  | succ k ih =>
    intro f₂ s h₁ h₂
    cases f₂ with
    | zero => omega
    | succ m =>
      simp only [splitGo]
      cases hocc : firstOcc s with
      | none => rfl
      | some i =>
        have hp := firstOcc_some_imp s i hocc
        have hlen : 9 ≤ (s.drop i).length := length_le_of_startsWith _ _ hp
        rw [List.length_drop] at hlen
        have hdrop : (s.drop (i + 9)).length = s.length - (i + 9) :=
          List.length_drop _ _
        refine congrArg _ (ih m (s.drop (i + 9)) ?_ ?_) <;> omega

theorem splitGo_succ (fuel : Nat) (s : Str) :
    splitGo (fuel + 1) s =
      match firstOcc s with
      | none => [s]
      | some i => s.take i :: splitGo fuel (s.drop (i + 9)) := rfl

theorem splitDelim_of_none (s : Str) (h : firstOcc s = none) :
    splitDelim s = [s] := by
  rw [splitDelim, splitGo_succ, h]

theorem splitDelim_of_some (s : Str) (i : Nat) (h : firstOcc s = some i) :
    splitDelim s = s.take i :: splitDelim (s.drop (i + 9)) := by
  have hp := firstOcc_some_imp s i h
  have hlen : 9 ≤ (s.drop i).length := length_le_of_startsWith _ _ hp
  rw [List.length_drop] at hlen
  have hdrop : (s.drop (i + 9)).length = s.length - (i + 9) := List.length_drop _ _
  rw [splitDelim, splitGo_succ, h, splitDelim]
  refine congrArg _ (splitGo_fuel_irrel _ _ _ ?_ ?_) <;> omega

/-! ### Trimmed strings and delimiter occurrences -/

theorem len_dropWhile_le {α : Type} (p : α → Bool) (l : List α) :
    (l.dropWhile p).length ≤ l.length := by
  induction l with
  | nil => simp
  | cons a l ih =>
    rw [List.dropWhile_cons]
    by_cases h : p a = true
    · rw [if_pos h]; exact Nat.le_succ_of_le ih
    · rw [if_neg h]

/-- A string fixed by `trim` does not end in whitespace. -/
theorem trim_fix_last (x : Str) (h : trim x = x) (c : Char) (cs : Str)
    (hc : x.reverse = c :: cs) : isWS c = false := by
  have l1 : (x.reverse.dropWhile isWS).length ≤ x.length := by
    calc (x.reverse.dropWhile isWS).length ≤ x.reverse.length :=
          len_dropWhile_le _ _
    _ = x.length := List.length_reverse _
  have l2 : x.length ≤ (x.reverse.dropWhile isWS).length := by
    conv_lhs => rw [← h]
    calc (trim x).length ≤ (trimRight x).length := len_dropWhile_le _ _
    _ = (x.reverse.dropWhile isWS).length := List.length_reverse _
  by_cases hw : isWS c = true
  · exfalso
    have hlt : (x.reverse.dropWhile isWS).length ≤ cs.length := by
      rw [hc, List.dropWhile_cons, if_pos hw]
      exact len_dropWhile_le _ _
    have : x.length = cs.length + 1 := by
      rw [← List.length_reverse x, hc, List.length_cons]
    omega
  · simpa using hw

theorem drop_append_le (x y : Str) : ∀ j, j ≤ x.length →
    (x ++ y).drop j = x.drop j ++ y := by
  induction x with
  | nil =>
    intro j hj
    have hj0 : j = 0 := Nat.le_zero.mp hj
    subst hj0
    simp
  | cons c t ih =>
    intro j hj
    cases j with
    | zero => simp
    | succ j =>
      simp only [List.cons_append, List.drop_succ_cons]
      exact ih j (Nat.le_of_succ_le_succ hj)

/-- A well-formed entry contains no occurrence of the delimiter at all. -/
theorem good_no_occ (x : Str) (hx : goodStr x) (j : Nat) :
    startsWith DELIM (x.drop j) = false := by
  by_cases hj : j < x.length
  · by_cases hocc : startsWith DELIM (x.drop j) = true
    · exfalso
      have hd : DELIM = threeSp ++ ['A', 'N', 'D', ' ', ' ', ' '] := rfl
      rw [hd] at hocc
      have := startsWith_of_startsWith_append _ _ _ hocc
      rw [hx.2.2 j hj] at this
      exact Bool.false_ne_true this
    · simpa using hocc
  · have : x.drop j = [] := List.drop_eq_nil_of_le (by omega)
    rw [this]
    rfl

/-- In `x ++ DELIM ++ t` with `x` well formed, the leftmost delimiter
occurrence is exactly at the join point `x.length`. -/
theorem firstOcc_append (x t : Str) (hx : goodStr x) :
    firstOcc (x ++ (DELIM ++ t)) = some x.length := by
  refine firstOcc_eq_some_of _ _ ?_ ?_
  · rw [List.drop_left]
    exact startsWith_self_append _ _
  · intro j hj
    by_cases hocc : startsWith DELIM ((x ++ (DELIM ++ t)).drop j) = true
    · exfalso
      rw [drop_append_le _ _ j (Nat.le_of_lt hj)] at hocc
      have hd : DELIM = threeSp ++ ['A', 'N', 'D', ' ', ' ', ' '] := rfl
      rw [hd] at hocc
      have h3 : startsWith threeSp (x.drop j ++ (DELIM ++ t)) = true :=
        startsWith_of_startsWith_append _ _ _ hocc
      have hul : (x.drop j).length = x.length - j := List.length_drop _ _
      rcases Nat.lt_or_ge (x.drop j).length 3 with hlt | hge
      · -- the tail of `x` below the occurrence is one or two spaces: then the
        -- last character of `x` is a space, contradicting trimmedness
        have hxeq : x.take j ++ x.drop j = x := List.take_append_drop _ _
        have hlast : ∃ c cs, x.reverse = c :: cs ∧ c = ' ' := by
          rcases hu : x.drop j with _ | ⟨a, _ | ⟨b, u⟩⟩
          · exfalso; rw [hu] at hul; simp at hul; omega
          · rw [hu] at h3
            simp only [List.cons_append, threeSp, startsWith,
              Bool.and_eq_true, beq_iff_eq] at h3
            refine ⟨a, (x.take j).reverse, ?_, h3.1.symm⟩
            have hx2 : x = x.take j ++ [a] := by rw [← hu]; exact hxeq.symm
            conv_lhs => rw [hx2]
            simp
          · exfalso
            rw [hu] at hul
            simp only [List.length_cons] at hul
            cases u with
            | nil =>
              rw [hu] at h3
              simp only [List.cons_append, threeSp, startsWith,
                Bool.and_eq_true, beq_iff_eq] at h3
              -- x.drop j = [a, b] with a = b = ' ' : last char of x is ' '
              have hb : ' ' = b := h3.2.1
              have : x.reverse = b :: (a :: (x.take j).reverse) := by
                have hx2 : x = x.take j ++ [a, b] := by rw [← hu]; exact hxeq.symm
                conv_lhs => rw [hx2]
                simp
              exact absurd (trim_fix_last x hx.2.1 b _ this)
                (by rw [← hb]; decide)
            | cons d u => rw [hu] at hlt; simp at hlt; omega
        obtain ⟨c, cs, hrev, hsp⟩ := hlast
        exact absurd (trim_fix_last x hx.2.1 c cs hrev) (by rw [hsp]; decide)
      · have := startsWith_append_left threeSp (x.drop j) _ (by
          simpa [threeSp] using hge) h3
        rw [hx.2.2 j hj] at this
        exact Bool.false_ne_true this
    · simpa using hocc

/-! ### The split/join round trip -/

theorem splitDelim_single (x : Str) (hx : goodStr x) : splitDelim x = [x] :=
  splitDelim_of_none x (firstOcc_eq_none_of x (good_no_occ x hx))

theorem splitDelim_good_append (x t : Str) (hx : goodStr x) :
    splitDelim (x ++ (DELIM ++ t)) = x :: splitDelim t := by
  rw [splitDelim_of_some _ _ (firstOcc_append x t hx)]
  have h1 : (x ++ (DELIM ++ t)).take x.length = x := List.take_left x _
  have h2 : (x ++ (DELIM ++ t)).drop (x.length + 9) = t := by
    rw [← List.drop_drop, List.drop_left]
    have h9 : (9 : Nat) = DELIM.length := rfl
    rw [h9, List.drop_left]
  rw [h1, h2]

theorem splitJoin (L : List Str) (hne : L ≠ [])
    (h : ∀ x ∈ L, goodStr x) : splitDelim (joinDelim L) = L := by
  induction L with
  | nil => exact absurd rfl hne
  | cons x L ih =>
    cases L with
    | nil => exact splitDelim_single x (h x (List.mem_cons_self x _))
    | cons y M =>
      have hx : goodStr x := h x (List.mem_cons_self x _)
      have hj : joinDelim (x :: y :: M) = x ++ (DELIM ++ joinDelim (y :: M)) := rfl
      rw [hj, splitDelim_good_append _ _ hx,
        ih (List.cons_ne_nil y M) (fun z hz => h z (List.mem_cons_of_mem x hz))]

theorem map_trim_id (L : List Str) (h : ∀ x ∈ L, trim x = x) :
    L.map trim = L := by
  induction L with
  | nil => rfl
  | cons x L ih =>
    rw [List.map_cons, h x (List.mem_cons_self x _),
      ih (fun z hz => h z (List.mem_cons_of_mem x hz))]

/-- The reconciliation pipeline is a left inverse of the join on lists of
well-formed entries (including the empty list). -/
theorem reconcile_join (L : List Str) (h : ∀ x ∈ L, goodStr x) :
    reconcile (joinDelim L) = L := by
  cases hL : L with
  | nil => decide
  | cons x M =>
    rw [← hL]
    have hne : L ≠ [] := by rw [hL]; exact List.cons_ne_nil x M
    rw [reconcile, splitJoin L hne h, map_trim_id L (fun z hz => (h z hz).2.1)]
    refine List.filter_eq_self.mpr (fun a ha => ?_)
    have : a ≠ [] := (h a ha).1
    simpa [List.length_pos] using this

/-! ### Lemmas about the operations -/

theorem renderPills_ok (st : PState) (h : st.pillsContainer = true) :
    renderPills st = .ok { st with pills := st.filters } := by
  simp [renderPills, h]

theorem usq_none (st : PState) (h : st.searchInput = none) :
    updateSearchQuery st = .ok st := by
  simp [updateSearchQuery, h]

/-- When every entry is well formed, the reconciliation triggered by the
synthetic `input` event reproduces the list, so `updateSearchQuery` only
rewrites the native input's text. -/
theorem usq_good (st : PState) (hg : ∀ x ∈ st.filters, goodStr x) (w : Str)
    (hw : st.searchInput = some w) :
    updateSearchQuery st =
      .ok { st with searchInput := some (joinDelim st.filters) } := by
  have hr : reconcile (joinDelim st.filters) = st.filters := reconcile_join _ hg
  simp [updateSearchQuery, hw, handleSearchInputChange, hr]

theorem reconcile_ne_nil (v x : Str) (hx : x ∈ reconcile v) : x ≠ [] := by
  have h := (List.mem_filter.mp hx).2
  simp only [decide_eq_true_eq] at h
  exact List.length_pos.mp h

theorem renderPills_filters (st r : PState) (h : renderPills st = .ok r) :
    r.filters = st.filters := by
  unfold renderPills at h
  split at h
  · cases h; rfl
  · split at h
    · cases h; rfl
    · cases h

theorem hsic_nonempty (st r : PState) (hne : ∀ x ∈ st.filters, x ≠ [])
    (h : handleSearchInputChange st = .ok r) : ∀ x ∈ r.filters, x ≠ [] := by
  unfold handleSearchInputChange at h
  split at h
  · cases h; exact hne
  · rename_i v hv
    by_cases heq : reconcile v = st.filters
    · rw [if_pos heq] at h; cases h; exact hne
    · rw [if_neg heq] at h
      have hf := renderPills_filters _ _ h
      intro x hx
      rw [hf] at hx
      exact reconcile_ne_nil v x hx

theorem usq_nonempty (st r : PState) (hne : ∀ x ∈ st.filters, x ≠ [])
    (h : updateSearchQuery st = .ok r) : ∀ x ∈ r.filters, x ≠ [] := by
  unfold updateSearchQuery at h
  split at h
  · cases h; exact hne
  · exact hsic_nonempty
      { st with searchInput := some (joinDelim st.filters) } r hne h

/-- The common tail of `handleNewFilter` and `removeFilter`: recompute the
derived query (whose event round-trip is a no-op on well-formed entries),
then re-render the pills. -/
theorem usq_then_render (st2 : PState) (hg2 : ∀ x ∈ st2.filters, goodStr x)
    (w : Str) (hw2 : st2.searchInput = some w)
    (hpc2 : st2.pillsContainer = true) :
    (match updateSearchQuery st2 with
     | .error e => (.error e : Except Unit PState)
     | .ok st3 => renderPills st3) =
      .ok { st2 with searchInput := some (joinDelim st2.filters),
                     pills := st2.filters } := by
  rw [usq_good st2 hg2 w hw2]
  show renderPills { st2 with searchInput := some (joinDelim st2.filters) } = _
  rw [renderPills_ok { st2 with searchInput := some (joinDelim st2.filters) }
    hpc2]

/-! ### The claims -/

/-- C1 (counterexample): the round trip fails as stated.  The single-element
list whose entry is `"a   AND   b"` — non-empty and whitespace-trimmed —
joins to `"a   AND   b"`, which splits back into `["a", "b"]`. -/
theorem claim1_cex :
    (∀ x ∈ [("a   AND   b").toList], x ≠ [] ∧ trim x = x) ∧
      reconcile (joinDelim [("a   AND   b").toList]) ≠
        [("a   AND   b").toList] := by
  decide

/-- C1 (amended): for every ordered list `L` of non-empty, whitespace-trimmed
strings that contain no run of three consecutive spaces (in particular no
occurrence of the delimiter), joining `L` with `"   AND   "` and then
splitting, trimming and dropping empties reproduces `L` exactly. -/
theorem claim1_round_trip (L : List Str) (h : ∀ x ∈ L, goodStr x) :
    reconcile (joinDelim L) = L :=
  reconcile_join L h

theorem claim1_round_trip_witness :
    (∀ x ∈ [['a'], ['b']], goodStr x) ∧
      reconcile (joinDelim [['a'], ['b']]) = [['a'], ['b']] :=
  ⟨by decide, claim1_round_trip [['a'], ['b']] (by decide)⟩

/-- C2: reconciliation of the native input's content adopts the split result
exactly when it differs from the current list — adopting persists and
re-renders, while an unchanged result leaves the whole state (persisted
settings included) untouched; and `"x   AND   y   AND   "` reconciles to
`["x", "y"]`. -/
theorem claim2_reconcile :
    (∀ (st : PState) (v : Str), st.searchInput = some v →
      st.pillsContainer = true →
      (reconcile v = st.filters → handleSearchInputChange st = .ok st) ∧
      (reconcile v ≠ st.filters → handleSearchInputChange st =
        .ok { st with filters := reconcile v, saved := reconcile v,
                      saves := st.saves + 1, pills := reconcile v })) ∧
    reconcile ("x   AND   y   AND   ".toList) = ["x".toList, "y".toList] := by
  constructor
  · intro st v hv hpc
    constructor
    · intro heq
      simp [handleSearchInputChange, hv, heq]
    · intro hne
      have h1 : handleSearchInputChange st =
          renderPills (saveSettings { st with filters := reconcile v }) := by
        simp [handleSearchInputChange, hv, hne]
      rw [h1, renderPills_ok _ (by simp [saveSettings, hpc])]
      rfl
  · decide

theorem claim2_reconcile_witness :
    handleSearchInputChange
        ⟨[], [], 0, some ("x   AND   y   AND   ".toList), true, []⟩ =
      .ok ⟨["x".toList, "y".toList], ["x".toList, "y".toList], 1,
           some ("x   AND   y   AND   ".toList), true,
           ["x".toList, "y".toList]⟩ := by
  rw [(claim2_reconcile.1 _ ("x   AND   y   AND   ".toList) rfl rfl).2
    (by decide)]
  decide

/-- C6 (code bug): with the host search container absent and a non-empty
persisted list, setup is not a silent no-op — the final `renderPills()`
dereferences the never-created pills container and throws a `TypeError`. -/
theorem claim6_throws :
    initializeComponentsNoHost ⟨["a".toList], ["a".toList], 0, none, false, []⟩
      = .error () := by
  decide

/-- C8: loading settings shallow-merges the persisted record over
`{filters: []}`: a missing record and a record without the `filters` field
both yield the well-formed default with an empty filter list. -/
theorem claim8_defaults :
    loadSettings none = DEFAULT_SETTINGS ∧
    loadSettings (some ⟨none⟩) = DEFAULT_SETTINGS ∧
    (loadSettings none).filters = [] := by
  decide

/-- C9: a debounced edit firing with an out-of-bounds index (negative or at
least the list's length) leaves the filters, the persisted state and the
native input unchanged. -/
theorem claim9_out_of_bounds (st : PState) (i : Int) (v : Str)
    (h : i < 0 ∨ (st.filters.length : Int) ≤ i) :
    debouncedUpdateFire st i v = .ok st := by
  have hc : ¬(0 ≤ i ∧ i < (st.filters.length : Int)) := by
    rcases h with h | h <;> omega
  simp [debouncedUpdateFire, hc]

theorem claim9_out_of_bounds_witness :
    debouncedUpdateFire ⟨["a".toList], ["a".toList], 3, some [], true, []⟩
        (-1) ("b".toList) =
      .ok ⟨["a".toList], ["a".toList], 3, some [], true, []⟩ :=
  claim9_out_of_bounds _ (-1) ("b".toList) (Or.inl (by decide))

/-- C3 (counterexample): appending is not just a push.  Appending
`"a   AND   b"` to the empty list pushes it, but writing the derived text
into the native input synchronously re-runs reconciliation, which splits the
new entry — the final FilterList is `["a", "b"]`, not `["a   AND   b"]`. -/
theorem claim3_cex :
    handleNewFilter ⟨[], [], 0, some [], true, []⟩ ("a   AND   b".toList) =
      .ok ⟨["a".toList, "b".toList], ["a".toList, "b".toList], 2,
           some ("a   AND   b".toList), true, ["a".toList, "b".toList]⟩ ∧
    ["a".toList, "b".toList] ≠ [("a   AND   b").toList] := by
  decide

/-- C3 (amended): `append(text)` trims its input and is a no-op on an empty
result; otherwise it pushes the trimmed string, persists, and writes the
derived query text into the native input, whose synthetic `input` event
immediately re-runs reconciliation — when the existing entries and the
appended string are well formed (non-empty, trimmed, no three consecutive
spaces) that reconciliation is a no-op and the final FilterList is exactly
the old list with the trimmed string appended (so appending `" b "` to
`["a"]` yields `["a", "b"]` with derived text `"a   AND   b"`). -/
theorem claim3_append :
    (∀ (st : PState) (v : Str), trim v = [] →
      handleNewFilter st v = .ok st) ∧
    (∀ (st : PState) (v w : Str), (∀ x ∈ st.filters, goodStr x) →
      goodStr (trim v) → st.searchInput = some w → st.pillsContainer = true →
      handleNewFilter st v =
        .ok { st with
          filters := st.filters ++ [trim v],
          saved := st.filters ++ [trim v],
          saves := st.saves + 1,
          searchInput := some (joinDelim (st.filters ++ [trim v])),
          pills := st.filters ++ [trim v] }) := by
  constructor
  · intro st v hv
    simp [handleNewFilter, hv]
  · intro st v w hg hv hw hpc
    have hne : trim v ≠ [] := hv.1
    have hgood : ∀ x ∈ st.filters ++ [trim v], goodStr x := by
      intro x hx
      rcases List.mem_append.mp hx with h1 | h2
      · exact hg x h1
      · rw [List.mem_singleton.mp h2]; exact hv
    simp only [handleNewFilter]
    rw [if_neg hne]
    exact usq_then_render
      (saveSettings { st with filters := st.filters ++ [trim v] })
      hgood w hw hpc

theorem claim3_append_witness :
    handleNewFilter ⟨["a".toList], ["a".toList], 0, some ("a".toList), true,
        ["a".toList]⟩ (" b ".toList) =
      .ok ⟨["a".toList, "b".toList], ["a".toList, "b".toList], 1,
           some ("a   AND   b".toList), true, ["a".toList, "b".toList]⟩ := by
  rw [claim3_append.2 _ (" b ".toList) ("a".toList) (by decide) (by decide)
    rfl rfl]
  decide

/-- C4 (counterexample): removal is not just an erase.  On
`["a   AND   b", "c"]`, `removeAt(1)` erases `"c"`, but the query rewrite
re-runs reconciliation, which splits the remaining entry — the final
FilterList is `["a", "b"]`, not `["a   AND   b"]`. -/
theorem claim4_cex :
    removeFilter ⟨[("a   AND   b").toList, "c".toList],
        [("a   AND   b").toList, "c".toList], 0, some [], true, []⟩ 1 =
      .ok ⟨["a".toList, "b".toList], ["a".toList, "b".toList], 2,
           some ("a   AND   b".toList), true, ["a".toList, "b".toList]⟩ ∧
    ["a".toList, "b".toList] ≠
      ([("a   AND   b").toList, "c".toList].eraseIdx 1) := by
  decide

/-- C4 (amended): `removeAt(index)` deletes the entry at the index, persists
the list, and recomputes the derived query text as the join of the remaining
entries; the synthetic `input` event's reconciliation is a no-op whenever
the entries are well formed (non-empty, trimmed, no three consecutive
spaces) — so on `["a", "b", "c"]`, `removeAt(1)` yields `["a", "c"]` with
derived text `"a   AND   c"`. -/
theorem claim4_remove (st : PState) (n : Nat) (w : Str)
    (hg : ∀ x ∈ st.filters, goodStr x) (hw : st.searchInput = some w)
    (hpc : st.pillsContainer = true) :
    removeFilter st n =
      .ok { st with
        filters := st.filters.eraseIdx n,
        saved := st.filters.eraseIdx n,
        saves := st.saves + 1,
        searchInput := some (joinDelim (st.filters.eraseIdx n)),
        pills := st.filters.eraseIdx n } := by
  have hgood : ∀ x ∈ st.filters.eraseIdx n, goodStr x := fun x hx =>
    hg x (List.mem_of_mem_eraseIdx hx)
  simp only [removeFilter]
  exact usq_then_render
    (saveSettings { st with filters := st.filters.eraseIdx n })
    hgood w hw hpc

theorem claim4_remove_witness :
    removeFilter ⟨["a".toList, "b".toList, "c".toList],
        ["a".toList, "b".toList, "c".toList], 0, some [], true,
        ["a".toList, "b".toList, "c".toList]⟩ 1 =
      .ok ⟨["a".toList, "c".toList], ["a".toList, "c".toList], 1,
           some ("a   AND   c".toList), true, ["a".toList, "c".toList]⟩ := by
  rw [claim4_remove _ 1 [] (by decide) rfl rfl]
  decide

/-- C5 (counterexample): the secondary-input creation does not check for an
existing, still-attached element — it checks the `existingSecondaryInput`
flag.  In a state where the flag is set but the element is no longer
attached, the code skips creation while the guard the claim describes would
create one. -/
theorem claim5_cex :
    createSecondaryInput ⟨true, none, true, false, 1, 1⟩ =
        ⟨true, none, true, false, 1, 1⟩ ∧
      createSecondaryInputSpec ⟨true, none, true, false, 1, 1⟩ ≠
        ⟨true, none, true, false, 1, 1⟩ := by
  decide

/-- C5 (amended): the pills-container creation checks for an existing,
still-attached element; the secondary-input creation is guarded by a
created-once flag instead — either way setup's creation phase is idempotent,
and invoking setup twice in succession from a fresh state never yields two
pills containers or two secondary inputs. -/
theorem claim5_idempotent :
    (∀ s : SetupState, setupCreate (setupCreate s) = setupCreate s) ∧
    (∀ b : Bool,
      (setupCreate (setupCreate ⟨b, none, false, false, 0, 0⟩)).pillsCreated
          ≤ 1 ∧
      (setupCreate
          (setupCreate ⟨b, none, false, false, 0, 0⟩)).secondaryCreated
          ≤ 1) := by
  constructor
  · intro s
    rcases s with ⟨c, pc, f, a, n, m⟩
    have hgd : pc.getD false = true ∨ pc.getD false = false := by
      cases pc.getD false <;> simp
    cases c <;> cases f <;> rcases hgd with h | h <;>
      simp [setupCreate, createPillsContainer, createSecondaryInput, h]
  · intro b
    cases b <;> decide

/-- C7 (counterexample): under the leading-edge semantics the claim
describes — the first edit of a burst fires immediately and the later ones
within the window are coalesced — three rapid edits `"x"`, `"y"`, `"z"` to
index 0 produce exactly one persisted write, but it contains the *first*
value `"x"`, not the last value `"z"` the claim requires. -/
theorem claim7_cex :
    leadingBurst
        ⟨["a".toList], ["a".toList], 0, some ("a".toList), true, ["a".toList]⟩
        [(0, "x".toList), (0, "y".toList), (0, "z".toList)] =
      .ok ⟨["x".toList], ["x".toList], 1, some ("x".toList), true,
           ["a".toList]⟩ ∧
    (["x".toList] : List Str) ≠ ["z".toList] := by
  decide

/-- C7 (amended): the edit callback is debounced with a fixed ~300 ms window
in which every new call re-arms the single pending timer and the callback
fires once, after the burst, with the last recorded arguments; the fired
edit trims the text, stores it at the index, persists, and recomputes the
derived query text, whose synthetic `input` event re-runs reconciliation —
when the existing entries and the trimmed last value are well formed
(non-empty, trimmed, no three consecutive spaces) that reconciliation is a
no-op, so three rapid edits to index 0 within the window result in exactly
one persisted write, containing the last value, and the pills are not
re-rendered.  (Without the well-formedness proviso the reconciliation may
rewrite the list again, performing a second persisted write and
re-rendering the pills, as in the C3/C4/C10 counterexamples.) -/
theorem claim7_coalesce (st : PState) (v1 v2 v3 w : Str)
    (hg : ∀ x ∈ st.filters, goodStr x) (hv : goodStr (trim v3))
    (hw : st.searchInput = some w) (hne : st.filters ≠ []) :
    debounceFlush st
        (debounceCall (debounceCall (debounceCall ⟨none⟩ 0 v1) 0 v2) 0 v3) =
      .ok ({ st with
        filters := st.filters.set 0 (trim v3),
        saved := st.filters.set 0 (trim v3),
        saves := st.saves + 1,
        searchInput := some (joinDelim (st.filters.set 0 (trim v3))) },
        ⟨none⟩) := by
  have hgood : ∀ x ∈ st.filters.set 0 (trim v3), goodStr x := by
    intro x hx
    rcases List.mem_or_eq_of_mem_set hx with h | h
    · exact hg x h
    · rw [h]; exact hv
  have hguard : (0 : Int) ≤ 0 ∧ (0 : Int) < (st.filters.length : Int) := by
    have := List.length_pos.mpr hne
    omega
  have husq :=
    usq_good (saveSettings { st with filters := st.filters.set 0 (trim v3) })
      hgood w hw
  show (match debouncedUpdateFire st 0 v3 with
    | .error e => (.error e : Except Unit (PState × Debouncer))
    | .ok st' => .ok (st', (⟨none⟩ : Debouncer))) = _
  rw [debouncedUpdateFire, if_pos hguard]
  show (match updateSearchQuery
      (saveSettings { st with filters := st.filters.set 0 (trim v3) }) with
    | .error e => (.error e : Except Unit (PState × Debouncer))
    | .ok st' => .ok (st', (⟨none⟩ : Debouncer))) = _
  rw [husq]
  rfl

theorem claim7_coalesce_witness :
    debounceFlush
        ⟨["a".toList], ["a".toList], 0, some ("a".toList), true, ["a".toList]⟩
        (debounceCall (debounceCall (debounceCall ⟨none⟩ 0 ("x".toList))
          0 ("y".toList)) 0 (" z ".toList)) =
      .ok (⟨["z".toList], ["z".toList], 1, some ("z".toList), true,
           ["a".toList]⟩, ⟨none⟩) := by
  rw [claim7_coalesce _ ("x".toList) ("y".toList) (" z ".toList) ("a".toList)
    (by decide) (by decide) rfl (by decide)]
  decide

/-- C10 (counterexample): an in-bounds edit whose text trims to the empty
string does not leave the empty entry in place when the native input is
present — storing it rewrites the query, whose reconciliation drops the
empty piece: editing index 1 of `["a", "b"]` to `"   "` yields `["a"]`, not
`["a", ""]`. -/
theorem claim10_cex :
    debouncedUpdateFire
        ⟨["a".toList, "b".toList], ["a".toList, "b".toList], 0, some [], true,
          ["a".toList, "b".toList]⟩ 1 ("   ".toList) =
      .ok ⟨["a".toList], ["a".toList], 2, some ("a   AND   ".toList), true,
           ["a".toList]⟩ ∧
    (["a".toList] : List Str) ≠ [("a".toList), []] := by
  decide

/-- C10 (amended): for an in-bounds index, an edit whose text trims to the
empty string stores the empty string at that index; when the native input is
absent the empty entry remains in FilterList — so the edit operation, unlike
append and reconciliation (which only ever produce non-empty entries), does
not preserve the invariant that every entry is non-empty.  When the native
input is present, the query rewrite's reconciliation immediately drops the
empty entry (see the counterexample). -/
theorem claim10_empty_edit :
    (∀ (st : PState) (i : Int) (v : Str), st.searchInput = none →
      0 ≤ i → i < (st.filters.length : Int) → trim v = [] →
      debouncedUpdateFire st i v =
        .ok { st with filters := st.filters.set i.toNat [],
                      saved := st.filters.set i.toNat [],
                      saves := st.saves + 1 } ∧
      [] ∈ st.filters.set i.toNat []) ∧
    (∀ (st : PState) (v : Str) (r : PState), (∀ x ∈ st.filters, x ≠ []) →
      handleNewFilter st v = .ok r → ∀ x ∈ r.filters, x ≠ []) ∧
    (∀ (v x : Str), x ∈ reconcile v → x ≠ []) := by
  refine ⟨?_, ?_, ?_⟩
  · intro st i v hsi h0 hlen hv
    constructor
    · have hguard : 0 ≤ i ∧ i < (st.filters.length : Int) := ⟨h0, hlen⟩
      have husq := usq_none
        (saveSettings { st with filters := st.filters.set i.toNat (trim v) })
        hsi
      rw [debouncedUpdateFire, if_pos hguard, husq, hv]
      rfl
    · have hi : i.toNat < st.filters.length := by omega
      exact List.mem_set st.filters i.toNat hi []
  · intro st v r hne h
    simp only [handleNewFilter] at h
    by_cases hv : trim v = []
    · rw [if_pos hv] at h; cases h; exact hne
    · rw [if_neg hv] at h
      have hst2 : ∀ x ∈
          (saveSettings
            { st with filters := st.filters ++ [trim v] }).filters, x ≠ [] := by
        intro x hx
        rcases List.mem_append.mp hx with h1 | h2
        · exact hne x h1
        · rw [List.mem_singleton.mp h2]; exact hv
      cases husq : updateSearchQuery
          (saveSettings { st with filters := st.filters ++ [trim v] }) with
      | error e => rw [husq] at h; cases h
      | ok st3 =>
        rw [husq] at h
        have h3 := usq_nonempty _ _ hst2 husq
        have hf := renderPills_filters _ _ h
        intro x hx
        rw [hf] at hx
        exact h3 x hx
  · exact reconcile_ne_nil

theorem claim10_empty_edit_witness :
    (debouncedUpdateFire ⟨["a".toList, "b".toList], ["a".toList, "b".toList],
        0, none, true, ["a".toList, "b".toList]⟩ 1 ("   ".toList) =
      .ok ⟨["a".toList, []], ["a".toList, []], 1, none, true,
           ["a".toList, "b".toList]⟩) ∧
    ([] : Str) ∈ [("a".toList), ([] : Str)] := by
  have h := (claim10_empty_edit.1
    ⟨["a".toList, "b".toList], ["a".toList, "b".toList], 0, none, true,
      ["a".toList, "b".toList]⟩ 1 ("   ".toList) rfl (by decide) (by decide)
    (by decide))
  exact ⟨by rw [h.1]; decide, h.2⟩
